import Mathlib

/-!
Shallow embedding of the LyX Hotkeys browser extension core
(`lyx-parser.js` and `core/key-sequence-handler.js`).

JavaScript strings are modelled as Lean `String` (all data of interest is
ASCII); `jsReplace` below models `str.replace(/pat/g, repl)` for the
literal (regex-metacharacter-free) patterns the source uses, substituting
every non-overlapping occurrence left to right.  The platform
sniff `navigator.platform.toUpperCase().indexOf('MAC') >= 0` is passed in as
an explicit `isMac : Bool` parameter.  JavaScript `Map`s are modelled as
association lists with unique keys, with `Map.set` keeping the original
insertion position on overwrite.
-/

namespace LyxHotkeys

/-! ### JavaScript string primitives

The JS string operations the source relies on (`replace(/…/g, …)`,
`toLowerCase`, `split`, `trim`, `startsWith`, `substring`, `join`) are
modelled by structurally recursive functions on the character list of a
`String`, so that every definition evaluates by kernel reduction. -/

/-- One scanning pass of `str.replace(/pat/g, repl)` for a literal pattern:
leftmost non-overlapping matches, continuing after the replaced portion
(the replacement text is never rescanned).  `fuel` is initialised to the
input length; every step consumes at least one input character, so the fuel
never runs out on the live path. -/
def jsReplaceGo (pat repl : List Char) : Nat → List Char → List Char
  | _, [] => []
  | 0, cs => cs
  | fuel + 1, c :: cs =>
    if pat.isPrefixOf (c :: cs) then
      repl ++ jsReplaceGo pat repl fuel (List.drop pat.length (c :: cs))
    else
      c :: jsReplaceGo pat repl fuel cs

/-- `str.replace(/pat/g, repl)` for a non-empty literal pattern. -/
def jsReplace (s pat repl : String) : String :=
  if pat.toList.isEmpty then s
  else String.mk (jsReplaceGo pat.toList repl.toList s.toList.length s.toList)

/-- `str.toLowerCase()` (ASCII data). -/
def jsToLower (s : String) : String :=
  String.mk (s.toList.map Char.toLower)

/-- `str.startsWith(pat)`. -/
def jsStartsWith (s pat : String) : Bool :=
  pat.toList.isPrefixOf s.toList

/-- `str.substring(n)` / dropping a prefix of `n` characters. -/
def jsDrop (s : String) (n : Nat) : String :=
  String.mk (s.toList.drop n)

/-- `str.split(sep)` for a single-character separator (the source only
splits on `'\n'`). -/
def jsSplitGo (sep : Char) : List Char → List Char → List String
  | acc, [] => [String.mk acc.reverse]
  | acc, c :: cs =>
    if c == sep then String.mk acc.reverse :: jsSplitGo sep [] cs
    else jsSplitGo sep (c :: acc) cs

/-- `str.split('\n')`. -/
def jsSplit (s : String) (sep : Char) : List String :=
  jsSplitGo sep [] s.toList

/-- `arr.join(sep)`. -/
def jsJoin (sep : String) : List String → String
  | [] => ""
  | [s] => s
  | s :: rest => s ++ sep ++ jsJoin sep rest

/-- Characters removed by `str.trim()` (ASCII whitespace plus NBSP; the
configuration text only ever carries spaces and tabs). -/
def isTrimChar (c : Char) : Bool :=
  c == ' ' || c == '\t' || c == '\n' || c == '\r' || c == '\x0b' || c == '\x0c' || c == ' '

/-- `str.trim()`. -/
def jsTrim (s : String) : String :=
  String.mk (((s.toList.dropWhile isTrimChar).reverse.dropWhile isTrimChar).reverse)

/-- The action values produced by `LyXConfigParser.convertCommand`:
plain objects `{type: 'wrap', before, after}`, `{type: 'insert', text}`,
and the `{type: ..., action: ...}` families. -/
inductive Action where
  | wrap (before after : String)
  | insert (text : String)
  | navigation (action : String)
  | selection (action : String)
  | del (action : String)
  | clipboard (action : String)
  | edit (action : String)
deriving DecidableEq, Repr

/-- The `options` object passed to `parse` / `normalizeKeySequence`.
Each field is `Option Bool`: `none` models the property being absent
(JS `undefined`), which the source treats differently in its two reads
(`options.mapMetaToCtrl !== false` in `normalizeKeySequence` versus the
truthiness test `!options.mapMetaToCtrl` in `resolveConflictsAndBuild`). -/
structure Options where
  overrideSystemShortcuts : Option Bool
  mapMetaToCtrl : Option Bool
deriving DecidableEq, Repr

/-- `convertCommand`: the static lookup table from LyX command names to
actions, with the `math-insert <latex>` prefix handled specially.  Unknown
commands return `null` (here `none`). -/
def convertCommand (command : String) : Option Action :=
  if jsStartsWith command "math-insert " then
    some (.insert (jsDrop command "math-insert ".length))
  else
    List.lookup command [
      ("font-bold", .wrap "**" "**"),
      ("font-emph", .wrap "*" "*"),
      ("font-underline", .wrap "_" "_"),
      ("font-typewriter", .wrap "`" "`"),
      ("font-strikeout", .wrap "~~" "~~"),
      ("math-mode", .wrap "$" "$"),
      ("math-display", .wrap "$$\n" "\n$$"),
      ("quote-insert inner", .insert "\""),
      ("quote-insert outer auto plain", .insert "'"),
      ("specialchar-insert hyphenation", .insert "\u00AD"),
      ("specialchar-insert nobreakdash", .insert "\u2011"),
      ("specialchar-insert ligature-break", .insert "\u200C"),
      ("specialchar-insert slash", .insert "/"),
      ("specialchar-insert end-of-sentence", .insert ". "),
      ("specialchar-insert dots", .insert "…"),
      ("space-insert protected", .insert "\u00A0"),
      ("space-insert normal", .insert " "),
      ("space-insert thin", .insert "\u2009"),
      ("ert-insert", .wrap "\\" ""),
      ("paragraph-break", .insert "\n\n"),
      ("paragraph-break inverse", .insert "\n"),
      ("newline-insert newline", .insert "\n"),
      ("newline-insert linebreak", .insert "\\\\\n"),
      ("char-forward", .navigation "moveRight"),
      ("char-backward", .navigation "moveLeft"),
      ("word-right", .navigation "moveWordRight"),
      ("word-left", .navigation "moveWordLeft"),
      ("line-begin", .navigation "moveLineStart"),
      ("line-end", .navigation "moveLineEnd"),
      ("buffer-begin", .navigation "moveDocumentStart"),
      ("buffer-end", .navigation "moveDocumentEnd"),
      ("char-right-select", .selection "selectRight"),
      ("char-left-select", .selection "selectLeft"),
      ("word-right-select", .selection "selectWordRight"),
      ("word-left-select", .selection "selectWordLeft"),
      ("line-begin-select", .selection "selectLineStart"),
      ("line-end-select", .selection "selectLineEnd"),
      ("buffer-begin-select", .selection "selectDocumentStart"),
      ("buffer-end-select", .selection "selectDocumentEnd"),
      ("char-delete-forward", .del "deleteRight"),
      ("char-delete-backward", .del "deleteLeft"),
      ("word-delete-forward", .del "deleteWordRight"),
      ("word-delete-backward", .del "deleteWordLeft"),
      ("line-delete-forward", .del "deleteLineForward"),
      ("copy", .clipboard "copy"),
      ("paste", .clipboard "paste"),
      ("cut", .clipboard "cut"),
      ("undo", .edit "undo"),
      ("redo", .edit "redo")
    ]

/-- `normalizeKeySequence(sequence, options)`: the chain of global string
replacements of the source, in source order.  The step
`.replace(/\+([a-z])$/, '+$1')` rewrites a trailing `+<letter>` to itself
and is therefore the identity on every string; it is omitted as a
transformation.  Replacements whose replacement text equals the pattern
(`backspace`→`backspace`, `delete`→`delete`, `space`→`space`,
`tab`→`tab`, `escape`→`escape`, `home`→`home`, `end`→`end`) are likewise
identities and are kept for a faithful one-to-one correspondence. -/
def normalizeKeySequence (isMac : Bool) (sequence : String) (options : Options) : String :=
  -- macOptions.mapMetaToCtrl = options.mapMetaToCtrl !== false (default true)
  let mapMetaToCtrl : Bool := options.mapMetaToCtrl != some false
  let normalized := jsReplace (jsReplace (jsReplace sequence "C-" "ctrl+") "S-" "shift+") "~S-" ""
  let normalized :=
    if isMac then
      if mapMetaToCtrl then
        jsReplace (jsReplace normalized "M-" "ctrl+") "A-" "alt+"
      else
        jsReplace (jsReplace normalized "M-" "meta+") "A-" "alt+"
    else
      jsReplace (jsReplace normalized "M-" "alt+") "A-" "alt+"
  let normalized := jsToLower normalized
  let normalized := jsReplace (jsReplace (jsReplace (jsReplace normalized
      "return" "enter") "backspace" "backspace") "delete" "delete") "space" "space"
  let normalized := jsReplace (jsReplace normalized "tab" "tab") "escape" "escape"
  let normalized := jsReplace (jsReplace normalized "prior" "pageup") "next" "pagedown"
  let normalized := jsReplace (jsReplace normalized "home" "home") "end" "end"
  let normalized := jsReplace (jsReplace (jsReplace (jsReplace normalized
      "left" "arrowleft") "right" "arrowright") "up" "arrowup") "down" "arrowdown"
  normalized

/-- A raw binding: the intermediate artifact of `parseBindLine`,
`{originalKey, command}`. -/
structure RawBinding where
  originalKey : String
  command : String
deriving DecidableEq, Repr

/-- Characters matched by the regex class `\s` (restricted to the ASCII
range plus NBSP; the configuration format only ever uses plain spaces). -/
def isWsChar (c : Char) : Bool :=
  c == ' ' || c == '\t' || c == '\n' || c == '\r' || c == '\x0b' || c == '\x0c' || c == ' '

/-- Strip an expected literal prefix from a character list (helper for the
regex model). -/
def dropPfx : List Char → List Char → Option (List Char)
  | [], cs => some cs
  | _ :: _, [] => none
  | p :: ps, c :: cs => if p == c then dropPfx ps cs else none

/-- Greedy `+`-quantified character-class match: take one or more leading
characters satisfying `p`, returning the matched run and the rest.  For the
classes used here (`\s`, `[^"]`), a following literal never also satisfies
the class, so the greedy maximal munch is the regex backtracking semantics. -/
def takePlus (p : Char → Bool) (cs : List Char) : Option (List Char × List Char) :=
  let t := cs.takeWhile p
  if t.isEmpty then none else some (t, cs.drop t.length)

/-- Attempt to match the regex `\\bind\s+"([^"]+)"\s+"([^"]+)"` anchored at
the head of the character list, returning the two capture groups. -/
def matchBindAt (cs : List Char) : Option (String × String) := do
  let cs ← dropPfx ['\\', 'b', 'i', 'n', 'd'] cs
  let (_, cs) ← takePlus isWsChar cs
  let cs ← dropPfx ['"'] cs
  let (k, cs) ← takePlus (fun c => !(c == '"')) cs
  let cs ← dropPfx ['"'] cs
  let (_, cs) ← takePlus isWsChar cs
  let cs ← dropPfx ['"'] cs
  let (cmd, cs) ← takePlus (fun c => !(c == '"')) cs
  let _ ← dropPfx ['"'] cs
  pure (String.mk k, String.mk cmd)

/-- Unanchored regex search, as `String.prototype.match` performs: try the
pattern at each successive start position. -/
def searchBind : List Char → Option (String × String)
  | [] => none
  | c :: rest =>
    match matchBindAt (c :: rest) with
    | some r => some r
    | none => searchBind rest

/-- `parseBindLine(line)`: match `\\bind\s+"([^"]+)"\s+"([^"]+)"` and return
`{originalKey, command}`, or `null` if the line does not match. -/
def parseBindLine (line : String) : Option RawBinding :=
  match searchBind line.toList with
  | some (k, c) => some ⟨k, c⟩
  | none => none

/-- `Map.set` on an association list: overwrite in place if the key is
present (JS `Map` keeps the original insertion position), else append. -/
def mapSet (m : List (String × Action)) (k : String) (v : Action) : List (String × Action) :=
  if m.any (fun p => p.1 == k) then
    m.map (fun p => if p.1 == k then (k, v) else p)
  else
    m ++ [(k, v)]

/-- `resolveConflictsAndBuild(rawBindings, options)`: the Mac `M-`/`C-`
conflict-resolution pass followed by the building pass.  The JS `Set`s
`metaKeys`, `conflictingCtrlKeys` and `ctrlKeysToPromote` are modelled as
lists queried by membership (a `Set` only ever answers `has`). -/
def resolveConflictsAndBuild (isMac : Bool) (rawBindings : List RawBinding)
    (options : Options) : List (String × Action) :=
  -- !options.mapMetaToCtrl : truthiness of the raw option value
  let commonMacKeys : List String := ["m", "n", "o", "p", "q", "r", "s", "t", "w"]
  let firstPassActive := isMac && !(options.mapMetaToCtrl == some true)
  let metaKeys : List String :=
    if firstPassActive then
      rawBindings.filterMap fun b =>
        if jsStartsWith b.originalKey "M-" then some (jsDrop b.originalKey 2) else none
    else []
  let ctrlKeysToPromote : List String :=
    if firstPassActive then
      rawBindings.filterMap fun b =>
        if jsStartsWith b.originalKey "C-" then
          let baseKey := jsDrop b.originalKey 2
          if commonMacKeys.contains baseKey && !metaKeys.contains baseKey then
            some b.originalKey
          else none
        else none
    else []
  let conflictingCtrlKeys : List String :=
    if firstPassActive then
      rawBindings.filterMap fun b =>
        if jsStartsWith b.originalKey "C-" then
          let baseKey := jsDrop b.originalKey 2
          if rawBindings.any (fun o =>
                o.originalKey == "M-" ++ baseKey && o.command == b.command)
              || (commonMacKeys.contains baseKey && !metaKeys.contains baseKey) then
            some b.originalKey
          else none
        else none
    else []
  rawBindings.foldl (fun keySequences b =>
    if conflictingCtrlKeys.contains b.originalKey then
      if ctrlKeysToPromote.contains b.originalKey then
        let baseKey := jsDrop b.originalKey 2
        let metaKey := "meta+" ++ baseKey
        match convertCommand b.command with
        | some action => mapSet keySequences metaKey action
        | none => keySequences
      else keySequences
    else
      let normalizedKey := normalizeKeySequence isMac b.originalKey options
      match convertCommand b.command with
      | some action => mapSet keySequences normalizedKey action
      | none => keySequences) []

/-- `parse(content, options)`: split on newlines, trim, skip comments /
`Format` / blank / `\bind_file` lines, collect raw bindings from `\bind `
lines, then resolve conflicts and build the final mapping table. -/
def parse (isMac : Bool) (content : String) (options : Options) : List (String × Action) :=
  let lines := jsSplit content '\n'
  let rawBindings := lines.foldl (fun acc l =>
    let line := jsTrim l
    if jsStartsWith line "#" || jsStartsWith line "Format" || line == ""
        || jsStartsWith line "\\bind_file" then
      acc
    else if jsStartsWith line "\\bind " then
      match parseBindLine line with
      | some binding => acc ++ [binding]
      | none => acc
    else acc) []
  resolveConflictsAndBuild isMac rawBindings options

/-! ### `core/key-sequence-handler.js` -/

/-- A keyboard event, restricted to the fields `getKeyCombo` reads:
`key`, `code`, and the four modifier flags. -/
structure KeyEvent where
  key : String
  code : String
  ctrlKey : Bool
  altKey : Bool
  shiftKey : Bool
  metaKey : Bool
deriving DecidableEq, Repr

/-- The `codeToKey` table used on Mac when Option is held without
Ctrl/Meta: physical key codes for the 26 letters, 10 digits and space. -/
def codeToKeyTable : List (String × String) := [
    ("KeyA", "a"), ("KeyB", "b"), ("KeyC", "c"), ("KeyD", "d"), ("KeyE", "e"),
    ("KeyF", "f"), ("KeyG", "g"), ("KeyH", "h"), ("KeyI", "i"), ("KeyJ", "j"),
    ("KeyK", "k"), ("KeyL", "l"), ("KeyM", "m"), ("KeyN", "n"), ("KeyO", "o"),
    ("KeyP", "p"), ("KeyQ", "q"), ("KeyR", "r"), ("KeyS", "s"), ("KeyT", "t"),
    ("KeyU", "u"), ("KeyV", "v"), ("KeyW", "w"), ("KeyX", "x"), ("KeyY", "y"),
    ("KeyZ", "z"),
    ("Digit0", "0"), ("Digit1", "1"), ("Digit2", "2"), ("Digit3", "3"),
    ("Digit4", "4"), ("Digit5", "5"), ("Digit6", "6"), ("Digit7", "7"),
    ("Digit8", "8"), ("Digit9", "9"),
    ("Space", "space")
  ]

/-- `codeToKey[event.code]` (an absent property reads as `undefined`). -/
def codeToKey (code : String) : Option String :=
  List.lookup code codeToKeyTable

/-- The `keyNormalizations` table of `getKeyCombo`. -/
def keyNormalizations (key : String) : Option String :=
  List.lookup key [
    (" ", "space"),
    ("arrowleft", "left"),
    ("arrowright", "right"),
    ("arrowup", "up"),
    ("arrowdown", "down"),
    ("pageup", "prior"),
    ("pagedown", "next")
  ]

/-- The main-key computation of `getKeyCombo`: lowercase `event.key`, remap
from `event.code` in the Mac Option-only case, then apply
`keyNormalizations` (`keyNormalizations[key] || key`; every table value is
a non-empty string, hence truthy). -/
def comboKey (isMac : Bool) (ev : KeyEvent) : String :=
  let key := jsToLower ev.key
  let key :=
    if isMac && ev.altKey && !ev.ctrlKey && !ev.metaKey then
      match codeToKey ev.code with
      | some k => k
      | none => key
    else key
  match keyNormalizations key with
  | some k => k
  | none => key

/-- The modifier parts pushed by `getKeyCombo`, in source order
ctrl, alt, shift, meta. -/
def modifierParts (ev : KeyEvent) : List String :=
  (if ev.ctrlKey then ["ctrl"] else []) ++
  (if ev.altKey then ["alt"] else []) ++
  (if ev.shiftKey then ["shift"] else []) ++
  (if ev.metaKey then ["meta"] else [])

/-- `getKeyCombo(event)`: `null` for a bare-modifier press, otherwise the
`+`-joined modifiers-then-key string. -/
def getKeyCombo (isMac : Bool) (ev : KeyEvent) : Option String :=
  let key := comboKey isMac ev
  if ["control", "alt", "shift", "meta"].contains key then
    none
  else
    some (jsJoin "+" (modifierParts ev ++ [key]))

/-- The recognizer state: `keySequence`, the timeout slot (`some d` models a
scheduled `setTimeout` handle created with duration `d`; `none` models
`null` / a cancelled timer), the configured duration, the mapping table
(always a `Map`: the constructor installs `new Map()` and `setMappings`
only ever stores a `Map`), and the `enabled` flag. -/
structure HandlerState where
  keySequence : List String
  sequenceTimeout : Option Nat
  sequenceTimeoutDuration : Nat
  mappings : List (String × Action)
  enabled : Bool
deriving DecidableEq, Repr

/-- The constructor's initial state: empty sequence, no timer, 1000 ms,
empty `Map`, enabled. -/
def initState : HandlerState :=
  { keySequence := []
    sequenceTimeout := none
    sequenceTimeoutDuration := 1000
    mappings := []
    enabled := true }

/-- `findMatchingAction(sequence)` in the reachable (`Map`) case:
`this.mappings.get(sequence)`.  (The source's falsy / plain-object branches
are unreachable through the public API, because the constructor and
`setMappings` always install a `Map`.) -/
def findMatchingAction (st : HandlerState) (sequence : String) : Option Action :=
  List.lookup sequence st.mappings

/-- `hasPartialMatch(sequence)`: some table key starts with the sequence
plus a trailing space. -/
def hasPartialMatch (st : HandlerState) (sequence : String) : Bool :=
  st.mappings.any fun p => jsStartsWith p.1 (sequence ++ " ")

/-- `clearSequence()`: empty the sequence and cancel/null the timer. -/
def clearSequence (st : HandlerState) : HandlerState :=
  { st with keySequence := [], sequenceTimeout := none }

/-- The observable outcome of one `processKeyEvent` call: the returned
boolean, the action emitted on the `actionExecute` channel (if any), and
the successor state. -/
structure ProcResult where
  handled : Bool
  executed : Option Action
  state : HandlerState
deriving DecidableEq, Repr

/-- `processKeyEvent(event, target)`.  The source calls
`clearTimeout(this.sequenceTimeout)` up front and then either reassigns the
slot (partial match) or nulls it via `clearSequence` (both other branches);
the model performs the cancellation by setting the slot to `none` at the
cancellation point, which yields the same slot value at every return. -/
def processKeyEvent (isMac : Bool) (ev : KeyEvent) (st : HandlerState) : ProcResult :=
  if !st.enabled then
    ⟨false, none, st⟩
  else
    match getKeyCombo isMac ev with
    | none => ⟨false, none, st⟩
    | some keyCombo =>
      let st := { st with
        keySequence := st.keySequence ++ [keyCombo],
        sequenceTimeout := none }
      let fullSequence := jsJoin " " st.keySequence
      match findMatchingAction st fullSequence with
      | some action =>
        ⟨true, some action, clearSequence st⟩
      | none =>
        if hasPartialMatch st fullSequence then
          ⟨true, none, { st with sequenceTimeout := some st.sequenceTimeoutDuration }⟩
        else
          ⟨false, none, clearSequence st⟩

/-- The body of the `setTimeout` callback scheduled on a partial match:
`this.clearSequence()`. -/
def onSequenceTimeout (st : HandlerState) : HandlerState :=
  clearSequence st

/-- A JavaScript value as it can arrive at `setMappings`: a `Map`, a
non-null object (its `Object.entries`), or one of the non-object values the
claimed failure modes mention. -/
inductive JSVal where
  | jsMap (entries : List (String × Action))
  | jsObj (entries : List (String × Action))
  | jsNull
  | jsUndef
  | jsNum (n : Int)
  | jsStr (s : String)
  | jsBool (b : Bool)
deriving DecidableEq, Repr

/-- `mappings instanceof Map`. -/
def JSVal.isJsMap : JSVal → Bool
  | .jsMap _ => true
  | _ => false

/-- `mappings && typeof mappings === 'object'`: a truthy value of object
type, i.e. a `Map` or a non-null plain object (`typeof null` is
`'object'` but `null` is falsy; numbers, strings, booleans and `undefined`
have a different `typeof`). -/
def JSVal.isTruthyObject : JSVal → Bool
  | .jsMap _ => true
  | .jsObj _ => true
  | _ => false

/-- `setMappings(mappings)`: keep a `Map` as-is, convert a plain object via
`Object.entries`, and otherwise install an empty `Map`. -/
def setMappings (v : JSVal) (st : HandlerState) : HandlerState :=
  if v.isJsMap then
    match v with
    | .jsMap e => { st with mappings := e }
    | _ => st
  else if v.isTruthyObject then
    match v with
    | .jsObj e => { st with mappings := e }
    | _ => st
  else
    { st with mappings := [] }

/-- `setEnabled(enabled)`: assigns the flag, nothing else. -/
def setEnabled (enabled : Bool) (st : HandlerState) : HandlerState :=
  { st with enabled := enabled }

/-- `setSequenceTimeout(duration)`: assigns the configured duration. -/
def setSequenceTimeout (duration : Nat) (st : HandlerState) : HandlerState :=
  { st with sequenceTimeoutDuration := duration }

/-! ### Vocabulary used to state the claims -/

/-- Contiguous-substring test on character lists. -/
def hasSubList (sub : List Char) : List Char → Bool
  | [] => sub.isEmpty
  | c :: rest => sub.isPrefixOf (c :: rest) || hasSubList sub rest

/-- `strContains s sub`: `sub` occurs as a contiguous substring of `s`. -/
def strContains (s sub : String) : Bool :=
  hasSubList sub.toList s.toList

/-- The lowercase Latin letters, as candidate base keys of a binding. -/
def lowercaseLetters : List String :=
  ["a", "b", "c", "d", "e", "f", "g", "h", "i", "j", "k", "l", "m",
   "n", "o", "p", "q", "r", "s", "t", "u", "v", "w", "x", "y", "z"]

/-- The standard `KeyboardEvent.key` values a browser delivers for the keys
this extension can observe: unshifted and shifted letters, digits, space,
and the named editing/navigation/modifier/function keys of the UI Events
specification.  (Punctuation keys carry their literal character and pass
through `getKeyCombo` untouched, like the letters.) -/
def standardKeyValues : List String :=
  lowercaseLetters ++
  ["A", "B", "C", "D", "E", "F", "G", "H", "I", "J", "K", "L", "M",
   "N", "O", "P", "Q", "R", "S", "T", "U", "V", "W", "X", "Y", "Z"] ++
  ["0", "1", "2", "3", "4", "5", "6", "7", "8", "9", " "] ++
  ["Enter", "Tab", "Escape", "Backspace", "Delete", "Insert", "Home", "End",
   "PageUp", "PageDown", "ArrowLeft", "ArrowRight", "ArrowUp", "ArrowDown",
   "Control", "Shift", "Alt", "Meta", "CapsLock", "ContextMenu", "NumLock",
   "ScrollLock", "F1", "F2", "F3", "F4", "F5", "F6", "F7", "F8", "F9",
   "F10", "F11", "F12"]

/-- Every key token `comboKey` can produce from a standard key value or
from the `codeToKey` table. -/
def comboTokens : List String :=
  lowercaseLetters ++
  ["0", "1", "2", "3", "4", "5", "6", "7", "8", "9", "space"] ++
  ["enter", "tab", "escape", "backspace", "delete", "insert", "home", "end",
   "prior", "next", "left", "right", "up", "down", "control", "shift",
   "alt", "meta", "capslock", "contextmenu", "numlock", "scrolllock",
   "f1", "f2", "f3", "f4", "f5", "f6", "f7", "f8", "f9", "f10", "f11", "f12"]

/-- The six normalized-arrow/page key tokens named by the specification. -/
def arrowPageSubstrings : List String :=
  ["arrowleft", "arrowright", "arrowup", "arrowdown", "pageup", "pagedown"]

/-- LyX modifier-prefix combinations appearing in bind lines. -/
def arrowPrefixes : List String :=
  ["", "C-", "S-", "M-", "A-", "~S-", "C-S-", "C-M-", "C-A-", "S-M-", "A-S-", "M-A-"]

/-- The LyX names of the arrow and page keys. -/
def arrowBases : List String :=
  ["Left", "Right", "Up", "Down", "Prior", "Next"]

/-- All modelled arrow or page key specs of a `\bind` line: a modifier
prefix combination followed by an arrow/page base name. -/
def arrowPageBindSpecs : List String :=
  (arrowPrefixes.product arrowBases).map fun pb => pb.1 ++ pb.2

/-- The sixteen possible values of `modifierParts`. -/
def modifierPartsCombos : List (List String) :=
  [[], ["meta"], ["shift"], ["shift", "meta"],
   ["alt"], ["alt", "meta"], ["alt", "shift"], ["alt", "shift", "meta"],
   ["ctrl"], ["ctrl", "meta"], ["ctrl", "shift"], ["ctrl", "shift", "meta"],
   ["ctrl", "alt"], ["ctrl", "alt", "meta"], ["ctrl", "alt", "shift"],
   ["ctrl", "alt", "shift", "meta"]]

/-- Every LyX command name of the `convertCommand` table, plus one
`math-insert` form (for which `convertCommand` synthesises an insert). -/
def commandNames : List String :=
  ["font-bold", "font-emph", "font-underline", "font-typewriter",
   "font-strikeout", "math-mode", "math-display", "quote-insert inner",
   "quote-insert outer auto plain", "specialchar-insert hyphenation",
   "specialchar-insert nobreakdash", "specialchar-insert ligature-break",
   "specialchar-insert slash", "specialchar-insert end-of-sentence",
   "specialchar-insert dots", "space-insert protected", "space-insert normal",
   "space-insert thin", "ert-insert", "paragraph-break",
   "paragraph-break inverse", "newline-insert newline",
   "newline-insert linebreak", "char-forward", "char-backward", "word-right",
   "word-left", "line-begin", "line-end", "buffer-begin", "buffer-end",
   "char-right-select", "char-left-select", "word-right-select",
   "word-left-select", "line-begin-select", "line-end-select",
   "buffer-begin-select", "buffer-end-select", "char-delete-forward",
   "char-delete-backward", "word-delete-forward", "word-delete-backward",
   "line-delete-forward", "copy", "paste", "cut", "undo", "redo",
   "math-insert \\alpha"]

/-- The recognizer's timer/sequence coupling: a timeout is scheduled
exactly when the pending key sequence is non-empty.  (The model's single
`Option` slot also captures that at most one timer is ever outstanding.) -/
def timerInv (st : HandlerState) : Prop :=
  st.sequenceTimeout = none ↔ st.keySequence = []

/-! ### Claims -/

/-- **C6** (status: code bug in the source).  The source intends `~S-` to be
erased as a no-op (its own comment reads `~S- means "not shift"`), and the
claim says `normalizeKeySequence ("~S-" ++ k) = normalizeKeySequence k`
with no residue.  In fact the preceding global replacement `S-`→`shift+`
consumes the `S-` inside every `~S-`, turning `~S-a` into `~shift+a`; the
subsequent `~S-` erasure is dead code, so the prefix leaves both a leading
`~` and a `shift+` token, for every platform and option value. -/
theorem normalizeKeySequence_tilde_shift_not_erased :
    ∀ (isMac : Bool) (o m : Option Bool),
      normalizeKeySequence isMac "~S-a" ⟨o, m⟩ = "~shift+a" ∧
      normalizeKeySequence isMac "a" ⟨o, m⟩ = "a" ∧
      normalizeKeySequence isMac "~S-a" ⟨o, m⟩ ≠ normalizeKeySequence isMac "a" ⟨o, m⟩ := by
  decide

/-- **C7** (status: code bug in the source).  The claim (and the intended
key-name synonym table) says `Prior`→`pageup`, `Next`→`pagedown`,
`Return`→`enter`.  The `Return` case holds, but the global replacements run
as a chain, and the later `up`→`arrowup` / `down`→`arrowdown` passes
rewrite the just-substituted `pageup`/`pagedown`, so `Prior` actually
normalizes to `pagearrowup` and `Next` to `pagearrowdown`, for every
platform and option value. -/
theorem normalizeKeySequence_prior_next_mangled :
    ∀ (isMac : Bool) (o m : Option Bool),
      normalizeKeySequence isMac "Prior" ⟨o, m⟩ = "pagearrowup" ∧
      normalizeKeySequence isMac "Next" ⟨o, m⟩ = "pagearrowdown" ∧
      normalizeKeySequence isMac "Return" ⟨o, m⟩ = "enter" := by
  decide

/-- **C2**, counterexample.  The claim says the recognizer's KeyCombo for
arrow/navigation keys uses the tokens `arrowleft`/…/`pageup`/`pagedown`
(e.g. Ctrl+ArrowLeft → `"ctrl+arrowleft"`).  At the concrete key-down
events Ctrl+ArrowLeft and Ctrl+PageUp, `getKeyCombo` instead produces
`"ctrl+left"` and `"ctrl+prior"`: its `keyNormalizations` table rewrites
the browser names to the LyX names, the direction opposite to the one
claimed. -/
theorem getKeyCombo_arrow_counterexample :
    getKeyCombo false ⟨"ArrowLeft", "ArrowLeft", true, false, false, false⟩ = some "ctrl+left" ∧
    getKeyCombo false ⟨"ArrowLeft", "ArrowLeft", true, false, false, false⟩ ≠ some "ctrl+arrowleft" ∧
    getKeyCombo false ⟨"PageUp", "PageUp", true, false, false, false⟩ = some "ctrl+prior" ∧
    getKeyCombo false ⟨"PageUp", "PageUp", true, false, false, false⟩ ≠ some "ctrl+pageup" := by
  decide

/-- **C2**, amended.  For every key-down event on an arrow or navigation
key (any platform, any held-modifier combination), the KeyCombo uses the
normalized tokens `left`/`right`/`up`/`down` and `prior`/`next`, with held
modifiers prefixed in the fixed order ctrl, alt, shift, meta joined by
`+`: e.g. ArrowLeft with Ctrl yields `"ctrl+left"` and PageUp with Ctrl
yields `"ctrl+prior"`. -/
theorem getKeyCombo_arrow_normalized :
    ∀ (isMac c a s m : Bool),
    ∀ p ∈ [("ArrowLeft", "left"), ("ArrowRight", "right"), ("ArrowUp", "up"),
           ("ArrowDown", "down"), ("PageUp", "prior"), ("PageDown", "next")],
      getKeyCombo isMac ⟨p.1, p.1, c, a, s, m⟩ =
        some (jsJoin "+"
          ((if c then ["ctrl"] else []) ++ (if a then ["alt"] else []) ++
           (if s then ["shift"] else []) ++ (if m then ["meta"] else []) ++ [p.2])) := by
  decide

/-- **C2**, amended, witness: Ctrl+ArrowLeft on a non-Mac platform yields
`"ctrl+left"`. -/
theorem getKeyCombo_arrow_normalized_witness :
    getKeyCombo false ⟨"ArrowLeft", "ArrowLeft", true, false, false, false⟩ =
      some (jsJoin "+" (["ctrl"] ++ [] ++ [] ++ [] ++ ["left"])) :=
  getKeyCombo_arrow_normalized false true false false false
    ("ArrowLeft", "left") (by decide)

/-- **C8**, counterexample.  From the state with pending sequence
`["ctrl+l"]`, a scheduled 1000 ms timer and the table
`{"ctrl+l a" ↦ Insert "\alpha"}`, calling `setEnabled(false)` leaves the
pending sequence and the timer in place (the claim says both are cleared),
and after `setEnabled(true)` the next key `a` completes `"ctrl+l a"` as a
continuation of the pre-disable sequence — not a fresh length-1
sequence. -/
theorem setEnabled_false_counterexample :
    (setEnabled false
        { keySequence := ["ctrl+l"], sequenceTimeout := some 1000,
          sequenceTimeoutDuration := 1000,
          mappings := [("ctrl+l a", .insert "\\alpha")],
          enabled := true }).keySequence = ["ctrl+l"] ∧
    (setEnabled false
        { keySequence := ["ctrl+l"], sequenceTimeout := some 1000,
          sequenceTimeoutDuration := 1000,
          mappings := [("ctrl+l a", .insert "\\alpha")],
          enabled := true }).sequenceTimeout = some 1000 ∧
    (processKeyEvent false ⟨"a", "KeyA", false, false, false, false⟩
        (setEnabled true (setEnabled false
          { keySequence := ["ctrl+l"], sequenceTimeout := some 1000,
            sequenceTimeoutDuration := 1000,
            mappings := [("ctrl+l a", .insert "\\alpha")],
            enabled := true }))).executed = some (.insert "\\alpha") := by
  decide

/-- **C8**, amended.  `setEnabled` only assigns the `enabled` flag: the
pending sequence, the timer slot, the mapping table and the configured
duration are all left untouched, and on an enabled state a
`setEnabled(false)`/`setEnabled(true)` cycle is the identity — so the next
KeyCombo fed to `processKeyEvent` is evaluated as a continuation of the
pre-disable pending sequence, not as a fresh length-1 sequence. -/
theorem setEnabled_only_sets_flag :
    ∀ (st : HandlerState) (b : Bool),
      (setEnabled b st).keySequence = st.keySequence ∧
      (setEnabled b st).sequenceTimeout = st.sequenceTimeout ∧
      (setEnabled b st).mappings = st.mappings ∧
      (setEnabled b st).sequenceTimeoutDuration = st.sequenceTimeoutDuration ∧
      (setEnabled b st).enabled = b ∧
      (st.enabled = true → setEnabled true (setEnabled false st) = st) := by
  intro st b
  refine ⟨rfl, rfl, rfl, rfl, rfl, ?_⟩
  intro h
  simp [setEnabled, ← h]

/-- **C8**, amended, witness at the concrete pre-disable state. -/
theorem setEnabled_only_sets_flag_witness :
    setEnabled true (setEnabled false
        { keySequence := ["ctrl+l"], sequenceTimeout := some 1000,
          sequenceTimeoutDuration := 1000,
          mappings := [("ctrl+l a", .insert "\\alpha")],
          enabled := true }) =
      { keySequence := ["ctrl+l"], sequenceTimeout := some 1000,
        sequenceTimeoutDuration := 1000,
        mappings := [("ctrl+l a", .insert "\\alpha")],
        enabled := true } :=
  (setEnabled_only_sets_flag
    { keySequence := ["ctrl+l"], sequenceTimeout := some 1000,
      sequenceTimeoutDuration := 1000,
      mappings := [("ctrl+l a", .insert "\\alpha")],
      enabled := true } false).2.2.2.2.2 rfl

/-- **C1**.  For every enabled recognizer state and mapping table, when
`processKeyEvent` receives a key-down event that yields a KeyCombo, it
appends the combo to the pending sequence and cancels any outstanding
timeout, then: (a) if the space-joined pending sequence is a key of the
table, it returns the handled decision carrying that key's action, with the
pending sequence empty and no timer scheduled afterwards; (b) otherwise, if
some table key starts with the sequence plus a trailing space, it returns
the handled decision with no action, retains the extended pending sequence,
and schedules a timeout of the configured duration; (c) otherwise it
returns the unhandled decision and the pending sequence is empty
afterwards (with no timer). -/
theorem processKeyEvent_decision
    (isMac : Bool) (ev : KeyEvent) (st : HandlerState) (combo : String)
    (henabled : st.enabled = true) (hcombo : getKeyCombo isMac ev = some combo) :
    (∀ a, findMatchingAction st (jsJoin " " (st.keySequence ++ [combo])) = some a →
        processKeyEvent isMac ev st =
          ⟨true, some a, { st with keySequence := [], sequenceTimeout := none }⟩) ∧
    (findMatchingAction st (jsJoin " " (st.keySequence ++ [combo])) = none →
      hasPartialMatch st (jsJoin " " (st.keySequence ++ [combo])) = true →
        processKeyEvent isMac ev st =
          ⟨true, none, { st with keySequence := st.keySequence ++ [combo],
                                 sequenceTimeout := some st.sequenceTimeoutDuration }⟩) ∧
    (findMatchingAction st (jsJoin " " (st.keySequence ++ [combo])) = none →
      hasPartialMatch st (jsJoin " " (st.keySequence ++ [combo])) = false →
        processKeyEvent isMac ev st =
          ⟨false, none, { st with keySequence := [], sequenceTimeout := none }⟩) := by
  refine ⟨?_, ?_, ?_⟩
  · intro a ha
    have ha' : List.lookup (jsJoin " " (st.keySequence ++ [combo])) st.mappings = some a := ha
    simp [processKeyEvent, henabled, hcombo, ha', clearSequence,
      findMatchingAction, hasPartialMatch]
  · intro hnone hpart
    have hnone' : List.lookup (jsJoin " " (st.keySequence ++ [combo])) st.mappings = none := hnone
    have hpart' : (st.mappings.any fun p =>
        jsStartsWith p.1 (jsJoin " " (st.keySequence ++ [combo]) ++ " ")) = true := hpart
    simp [processKeyEvent, henabled, hcombo, hnone', hpart',
      findMatchingAction, hasPartialMatch]
  · intro hnone hpart
    have hnone' : List.lookup (jsJoin " " (st.keySequence ++ [combo])) st.mappings = none := hnone
    have hpart' : (st.mappings.any fun p =>
        jsStartsWith p.1 (jsJoin " " (st.keySequence ++ [combo]) ++ " ")) = false := hpart
    simp [processKeyEvent, henabled, hcombo, hnone', hpart', clearSequence,
      findMatchingAction, hasPartialMatch]

/-- **C1**, witness: on the table `{"ctrl+l a" ↦ Insert "\alpha"}`, feeding
Ctrl+L to the fresh state takes branch (b): handled, sequence retained,
1000 ms timer scheduled. -/
theorem processKeyEvent_decision_witness :
    processKeyEvent false ⟨"l", "KeyL", true, false, false, false⟩
        { initState with mappings := [("ctrl+l a", .insert "\\alpha")] } =
      ⟨true, none, { initState with
                      mappings := [("ctrl+l a", .insert "\\alpha")],
                      keySequence := [] ++ ["ctrl+l"],
                      sequenceTimeout := some 1000 }⟩ :=
  (processKeyEvent_decision false ⟨"l", "KeyL", true, false, false, false⟩
      { initState with mappings := [("ctrl+l a", .insert "\\alpha")] }
      "ctrl+l" rfl (by decide)).2.1 (by decide) (by decide)

/-- **C9**.  The recognizer fails closed on an invalid mapping table: for
every `setMappings` argument that is neither a `Map` nor a truthy object
(`null`, `undefined`, a number, a string, a boolean), an empty table is
installed, and every subsequent `processKeyEvent` call on a combo-producing
event returns the unhandled outcome with no action executed and the pending
sequence left empty. -/
theorem setMappings_invalid_fails_closed
    (v : JSVal) (hmap : v.isJsMap = false) (hobj : v.isTruthyObject = false)
    (st : HandlerState) :
    (setMappings v st).mappings = [] ∧
    ∀ (isMac : Bool) (ev : KeyEvent) (combo : String),
      st.enabled = true → getKeyCombo isMac ev = some combo →
      processKeyEvent isMac ev (setMappings v st) =
        ⟨false, none, { (setMappings v st) with
                        keySequence := [],
                        sequenceTimeout := none }⟩ := by
  have hm : (setMappings v st).mappings = [] := by
    cases v <;> simp_all [setMappings, JSVal.isJsMap, JSVal.isTruthyObject]
  refine ⟨hm, ?_⟩
  intro isMac ev combo hen hc
  have hen' : (setMappings v st).enabled = true := by
    cases v <;> simpa [setMappings] using hen
  simp [processKeyEvent, hen', hc, findMatchingAction, hasPartialMatch, hm,
    clearSequence]

/-- **C9**, witness: `setMappings(null)` on the fresh state, then Ctrl+B,
yields the unhandled outcome with an empty table and empty sequence. -/
theorem setMappings_invalid_fails_closed_witness :
    (setMappings .jsNull initState).mappings = [] ∧
    processKeyEvent false ⟨"b", "KeyB", true, false, false, false⟩
        (setMappings .jsNull initState) =
      ⟨false, none, { (setMappings .jsNull initState) with
                      keySequence := [],
                      sequenceTimeout := none }⟩ :=
  ⟨(setMappings_invalid_fails_closed .jsNull rfl rfl initState).1,
   (setMappings_invalid_fails_closed .jsNull rfl rfl initState).2
     false ⟨"b", "KeyB", true, false, false, false⟩ "ctrl+b" rfl (by decide)⟩

/-- **C10**.  State-machine invariant: in the constructor's initial state,
and preserved by every public operation (`processKeyEvent`, the timeout
callback, `clearSequence`, `setMappings`, `setEnabled`,
`setSequenceTimeout`), a sequence timeout is scheduled exactly when the
pending key sequence is non-empty; the model's single timer slot embodies
that at most one timer is outstanding, and whenever the sequence is
cleared the slot is nulled in the same step. -/
theorem timerInv_preserved :
    timerInv initState ∧
    (∀ (isMac : Bool) (ev : KeyEvent) (st : HandlerState),
      timerInv st → timerInv (processKeyEvent isMac ev st).state) ∧
    (∀ st : HandlerState, timerInv (onSequenceTimeout st)) ∧
    (∀ st : HandlerState, timerInv (clearSequence st)) ∧
    (∀ (v : JSVal) (st : HandlerState), timerInv st → timerInv (setMappings v st)) ∧
    (∀ (b : Bool) (st : HandlerState), timerInv st → timerInv (setEnabled b st)) ∧
    (∀ (d : Nat) (st : HandlerState), timerInv st → timerInv (setSequenceTimeout d st)) := by
  refine ⟨by simp [timerInv, initState], ?_, ?_, ?_, ?_, ?_, ?_⟩
  · intro isMac ev st h
    unfold processKeyEvent
    split
    · exact h
    · cases hc : getKeyCombo isMac ev with
      | none => exact h
      | some combo =>
        simp only
        split
        · simp [timerInv, clearSequence]
        · split
          · simp [timerInv]
          · simp [timerInv, clearSequence]
  · intro st; simp [timerInv, onSequenceTimeout, clearSequence]
  · intro st; simp [timerInv, clearSequence]
  · intro v st h; cases v <;> simpa [setMappings, timerInv] using h
  · intro b st h; simpa [setEnabled, timerInv] using h
  · intro d st h; simpa [setSequenceTimeout, timerInv] using h

/-- **C10**, witness: the invariant holds after feeding Ctrl+L (partial
match, timer scheduled) to the fresh state with table
`{"ctrl+l a" ↦ Insert "\alpha"}`. -/
theorem timerInv_preserved_witness :
    timerInv (processKeyEvent false ⟨"l", "KeyL", true, false, false, false⟩
      { initState with mappings := [("ctrl+l a", .insert "\\alpha")] }).state :=
  timerInv_preserved.2.1 false ⟨"l", "KeyL", true, false, false, false⟩
    { initState with mappings := [("ctrl+l a", .insert "\\alpha")] }
    (by simp [timerInv, initState])

/-- **C4**.  On Mac with `mapMetaToCtrl = false`, when a `C-<key>` and an
`M-<key>` bind line carry the same command, the `C-` binding is dropped and
only the `M-` one is kept, as `meta+<key>`: for every base key letter with
the command `font-bold`, and for every supported command with the base key
`b`, parsing the two-line config yields exactly the singleton table
`meta+<key> ↦ action`; in particular the `C-b`/`M-b` `font-bold` config
yields `{"meta+b" ↦ Wrap "**" "**"}` with no `"ctrl+b"` key present. -/
theorem parse_mac_conflict_drop :
    (∀ k ∈ lowercaseLetters,
      parse true ("\\bind \"C-" ++ k ++ "\" \"font-bold\"\n\\bind \"M-" ++ k
          ++ "\" \"font-bold\"") ⟨none, some false⟩ =
        [("meta+" ++ k, Action.wrap "**" "**")]) ∧
    (∀ cmd ∈ commandNames,
      parse true ("\\bind \"C-b\" \"" ++ cmd ++ "\"\n\\bind \"M-b\" \"" ++ cmd
          ++ "\"") ⟨none, some false⟩ =
        (convertCommand cmd).elim [] (fun a => [("meta+b", a)])) ∧
    List.lookup "ctrl+b"
      (parse true "\\bind \"C-b\" \"font-bold\"\n\\bind \"M-b\" \"font-bold\""
        ⟨none, some false⟩) = none := by
  refine ⟨by decide, by decide, by decide⟩

/-- **C4**, witness: the concrete `C-b`/`M-b` `font-bold` config parses to
the singleton `meta+b` table. -/
theorem parse_mac_conflict_drop_witness :
    parse true ("\\bind \"C-" ++ "b" ++ "\" \"font-bold\"\n\\bind \"M-" ++ "b"
        ++ "\" \"font-bold\"") ⟨none, some false⟩ =
      [("meta+" ++ "b", Action.wrap "**" "**")] :=
  parse_mac_conflict_drop.1 "b" (by decide)

/-- **C5**.  On Mac with `mapMetaToCtrl = false`, a `C-<key>` binding whose
base key is in the allow-list `{m,n,o,p,q,r,s,t,w}` and which has no
competing `M-<key>` binding is promoted: for every allow-listed key with
the command `math-mode`, and for every supported command with the key `m`,
parsing the single `C-<key>` line yields exactly the singleton table
`meta+<key> ↦ action`; in particular `\bind "C-m" "math-mode"` alone
yields `{"meta+m" ↦ Wrap "$" "$"}` with no `"ctrl+m"` entry. -/
theorem parse_mac_promotion :
    (∀ k ∈ ["m", "n", "o", "p", "q", "r", "s", "t", "w"],
      parse true ("\\bind \"C-" ++ k ++ "\" \"math-mode\"") ⟨none, some false⟩ =
        [("meta+" ++ k, Action.wrap "$" "$")]) ∧
    (∀ cmd ∈ commandNames,
      parse true ("\\bind \"C-m\" \"" ++ cmd ++ "\"") ⟨none, some false⟩ =
        (convertCommand cmd).elim [] (fun a => [("meta+m", a)])) ∧
    List.lookup "ctrl+m"
      (parse true "\\bind \"C-m\" \"math-mode\"" ⟨none, some false⟩) = none := by
  refine ⟨by decide, by decide, by decide⟩

/-- **C5**, witness: the concrete `C-m` `math-mode` line parses to the
singleton `meta+m` table. -/
theorem parse_mac_promotion_witness :
    parse true ("\\bind \"C-" ++ "m" ++ "\" \"math-mode\"") ⟨none, some false⟩ =
      [("meta+" ++ "m", Action.wrap "$" "$")] :=
  parse_mac_promotion.1 "m" (by decide)

/-- A successful association-list lookup returns one of the stored
values. -/
theorem lookup_mem_values {α β : Type} [BEq α] {l : List (α × β)} {k : α} {v : β}
    (h : List.lookup k l = some v) : v ∈ l.map Prod.snd := by
  induction l with
  | nil => simp [List.lookup] at h
  | cons p rest ih =>
    obtain ⟨a, b⟩ := p
    simp only [List.lookup] at h
    cases hk : k == a with
    | true => rw [hk] at h; injection h with h; simp [h]
    | false => rw [hk] at h; simpa using Or.inr (ih h)

/-- `modifierParts` always yields one of the sixteen modifier-prefix
lists. -/
theorem modifierParts_mem (ev : KeyEvent) :
    modifierParts ev ∈ modifierPartsCombos := by
  unfold modifierParts
  cases ev.ctrlKey <;> cases ev.altKey <;> cases ev.shiftKey <;> cases ev.metaKey <;>
    simp <;> decide

/-- Normalizing any standard key value through `keyNormalizations` lands in
`comboTokens`. -/
theorem normalizedKey_mem :
    ∀ k ∈ standardKeyValues,
      (match keyNormalizations (jsToLower k) with
        | some v => v
        | none => jsToLower k) ∈ comboTokens := by
  decide

/-- Normalizing any `codeToKey` table value through `keyNormalizations`
lands in `comboTokens`. -/
theorem codeVal_normalized_mem :
    ∀ v ∈ codeToKeyTable.map Prod.snd,
      (match keyNormalizations v with
        | some w => w
        | none => v) ∈ comboTokens := by
  decide

/-- For an event whose `key` is a standard key value, the final key token
computed by `comboKey` is one of `comboTokens`, on every platform. -/
theorem comboKey_mem (isMac : Bool) (ev : KeyEvent)
    (hkey : ev.key ∈ standardKeyValues) :
    comboKey isMac ev ∈ comboTokens := by
  unfold comboKey
  by_cases hmac : (isMac && ev.altKey && !ev.ctrlKey && !ev.metaKey) = true
  · rw [hmac]
    simp only [if_true]
    cases hcode : codeToKey ev.code with
    | none => exact normalizedKey_mem ev.key hkey
    | some v => exact codeVal_normalized_mem v (lookup_mem_values hcode)
  · rw [Bool.not_eq_true] at hmac
    rw [hmac]
    simp only [Bool.false_eq_true, if_false]
    exact normalizedKey_mem ev.key hkey

set_option maxHeartbeats 4000000 in
/-- No `+`-joined combo built from a modifier prefix and a combo token
contains any of the six `arrowleft`/…/`pagedown` substrings. -/
theorem combo_no_arrowPage_substring :
    ∀ ms ∈ modifierPartsCombos, ∀ tok ∈ comboTokens, ∀ sub ∈ arrowPageSubstrings,
      strContains (jsJoin "+" (ms ++ [tok])) sub = false := by
  decide

set_option maxHeartbeats 4000000 in
/-- Every normalized arrow/page bind spec contains one of the six
`arrowleft`/…/`pagedown` substrings, on every platform and option value. -/
theorem normalized_arrow_spec_contains :
    ∀ spec ∈ arrowPageBindSpecs, ∀ (pm : Bool) (o m : Option Bool),
      (arrowPageSubstrings.any fun sub =>
        strContains (normalizeKeySequence pm spec ⟨o, m⟩) sub) = true := by
  decide

/-- **C3**.  The parser and the recognizer use disjoint canonical names for
arrow and page keys: for every key-down event whose `key` is a standard
key value, the KeyCombo returned by `getKeyCombo` never contains any of
the substrings `arrowleft`, `arrowright`, `arrowup`, `arrowdown`,
`pageup`, `pagedown` — and therefore never equals a table key produced by
`normalizeKeySequence` from an arrow- or page-key bind line (whose
normalization always contains one of those substrings), for any
combination of platforms and options.  Hence arrow/page-key bindings
produced by the parser can never fire. -/
theorem getKeyCombo_arrow_bindings_unreachable
    (isMac pm : Bool) (ev : KeyEvent) (hkey : ev.key ∈ standardKeyValues)
    (combo : String) (hc : getKeyCombo isMac ev = some combo) :
    (∀ sub ∈ arrowPageSubstrings, strContains combo sub = false) ∧
    (∀ spec ∈ arrowPageBindSpecs, ∀ (o m : Option Bool),
      combo ≠ normalizeKeySequence pm spec ⟨o, m⟩) := by
  have hcombo_eq : combo = jsJoin "+" (modifierParts ev ++ [comboKey isMac ev]) := by
    unfold getKeyCombo at hc
    by_cases h : (["control", "alt", "shift", "meta"].contains (comboKey isMac ev)) = true
    · rw [if_pos h] at hc; cases hc
    · rw [if_neg h] at hc; injection hc with hc; exact hc.symm
  have h1 : ∀ sub ∈ arrowPageSubstrings, strContains combo sub = false := by
    intro sub hsub
    rw [hcombo_eq]
    exact combo_no_arrowPage_substring _ (modifierParts_mem ev) _
      (comboKey_mem isMac ev hkey) sub hsub
  refine ⟨h1, ?_⟩
  intro spec hspec o m heq
  have h2 := normalized_arrow_spec_contains spec hspec pm o m
  rw [List.any_eq_true] at h2
  obtain ⟨sub, hsub, hcon⟩ := h2
  have h3 := h1 sub hsub
  rw [heq, hcon] at h3
  cases h3

/-- **C3**, witness: for Ctrl+ArrowLeft the combo `"ctrl+left"` contains no
`arrowleft` substring and differs from the parser's normalization of the
bind specs `"Left"` and `"C-Left"`. -/
theorem getKeyCombo_arrow_bindings_unreachable_witness :
    strContains "ctrl+left" "arrowleft" = false ∧
    "ctrl+left" ≠ normalizeKeySequence false "Left" ⟨none, none⟩ ∧
    "ctrl+left" ≠ normalizeKeySequence false "C-Left" ⟨none, none⟩ :=
  ⟨(getKeyCombo_arrow_bindings_unreachable false false
      ⟨"ArrowLeft", "ArrowLeft", true, false, false, false⟩ (by decide)
      "ctrl+left" (by decide)).1 "arrowleft" (by decide),
   (getKeyCombo_arrow_bindings_unreachable false false
      ⟨"ArrowLeft", "ArrowLeft", true, false, false, false⟩ (by decide)
      "ctrl+left" (by decide)).2 "Left" (by decide) none none,
   (getKeyCombo_arrow_bindings_unreachable false false
      ⟨"ArrowLeft", "ArrowLeft", true, false, false, false⟩ (by decide)
      "ctrl+left" (by decide)).2 "C-Left" (by decide) none none⟩

end LyxHotkeys
